import Mathlib

/-!
Verification development for the web-retriever content-normalization pipeline
(src/main.py).  Python strings and byte strings are modelled as lists of
characters (`PyStr`); machine behavior that lives in external libraries
(httpx, json, yaml, PyPDF2, BeautifulSoup) is modelled by oracle fields of the
`Fetched` structure, while every function defined in src/main.py is translated
directly below.
-/

set_option maxRecDepth 40000

/-- Python `str` / `bytes`: a sequence of characters (code points). -/
abbrev PyStr := List Char

/-- Literal helper: the character list of a Lean string literal. -/
def pstr (s : String) : PyStr := s.toList

/-- src/main.py line 17: `CHAR_LIMIT = 1585`. -/
def CHAR_LIMIT : Nat := 1585

/-- src/main.py line 18: `IMAGES_CHAR_LIMIT = 300`. -/
def IMAGES_CHAR_LIMIT : Nat := 300

/-- src/main.py line 20: the trailing guidance text appended when images are present. -/
def IMAGES_SUFIX : PyStr :=
  pstr ", and I will also include images in the format like this: ![](image url)"

/-- Python `bytes.upper()` restricted to ASCII letters (what CPython does on bytes). -/
def asciiUpper (c : Char) : Char :=
  if 'a' ≤ c ∧ c ≤ 'z' then Char.ofNat (c.toNat - 32) else c

/-- Python `bytes.upper()` on a whole byte string. -/
def bytesUpper (s : PyStr) : PyStr := s.map asciiUpper

/-- ASCII lowering, used to model `re.IGNORECASE` comparisons. -/
def asciiLower (c : Char) : Char :=
  if 'A' ≤ c ∧ c ≤ 'Z' then Char.ofNat (c.toNat + 32) else c

/-- ASCII lowering of a whole string. -/
def bytesLower (s : PyStr) : PyStr := s.map asciiLower

/-- Python `str.strip()`: remove leading and trailing whitespace. -/
def pyStrip (s : PyStr) : PyStr :=
  ((s.dropWhile Char.isWhitespace).reverse.dropWhile Char.isWhitespace).reverse

/-- Python `str.split('\n')`: always returns at least one piece; empty string
gives `[""]`, a trailing newline gives a trailing empty piece. -/
def pySplitNl : PyStr → List PyStr
  | [] => [[]]
  | c :: rest =>
    let r := pySplitNl rest
    if c = '\n' then [] :: r
    else
      match r with
      | [] => [[c]]
      | h :: t => (c :: h) :: t

/-- src/main.py lines 39-57: `detect_content_type(content)`.  The two external
structural parses (`json.loads`, `yaml.safe_load`) are abstracted by the boolean
oracles `jsonParses` / `yamlParses` (success of the respective library call);
everything else is the source's prefix logic verbatim.  Note that only the
DOCTYPE test goes through `.upper()`; the `<html` test is on the raw bytes. -/
def detect_content_type (content : PyStr) (jsonParses yamlParses : Bool) : String :=
  if (pstr "%PDF-").isPrefixOf content then "application/pdf"
  else if (pstr "<!DOCTYPE HTML").isPrefixOf (bytesUpper content)
          || (pstr "<html").isPrefixOf content then "text/html"
  else if (pstr "\x7b").isPrefixOf content || (pstr "[").isPrefixOf content then
    (if jsonParses then "application/json" else "text/plain")
  else if (pstr "---").isPrefixOf content || (pstr "%YAML").isPrefixOf content then
    (if yamlParses then "application/x-yaml" else "text/plain")
  else "text/plain"

/-- src/main.py lines 60-79, the loop body of `limit_image_count` with its
running character count.  `current` is `current_length`; returning `[]` models
the `break`. -/
def limitGo (max_chars : Nat) : List PyStr → Nat → List PyStr
  | [], _ => []
  | url :: rest, current =>
    let url_length :=
      if (pstr "//").isPrefixOf url then (pstr "http:").length + url.length else url.length
    if current + url_length > max_chars then []
    else
      (if (pstr "//").isPrefixOf url then pstr "http:" ++ url else url)
        :: limitGo max_chars rest (current + url_length)

/-- src/main.py lines 60-79: `limit_image_count(images, max_chars=300)`. -/
def limit_image_count (images : List PyStr) (max_chars : Nat) : List PyStr :=
  limitGo max_chars images 0

/-- src/main.py lines 82-96, the loop body of `truncate_paragraphs`; the second
branch appends the prefix that fits and models the `break`. -/
def truncateGo (max_length : Nat) : List PyStr → Nat → List PyStr
  | [], _ => []
  | p :: rest, current =>
    if current + p.length ≤ max_length then
      p :: truncateGo max_length rest (current + p.length)
    else
      [p.take (max_length - current)]

/-- src/main.py lines 82-96: `truncate_paragraphs(paragraphs, max_length)`. -/
def truncate_paragraphs (paragraphs : List PyStr) (max_length : Nat) : List PyStr :=
  truncateGo max_length paragraphs 0

/-- src/main.py lines 162-163: `if len(text) > CHAR_LIMIT: text = text[:CHAR_LIMIT]`,
with the limit as a parameter (the pipeline instantiates it at `CHAR_LIMIT`). -/
def clampText (t : PyStr) (limit : Nat) : PyStr :=
  if t.length > limit then t.take limit else t

/-- src/main.py lines 158-159: protocol-relative URL normalization. -/
def normalizeUrl (url : PyStr) : PyStr :=
  if (pstr "//").isPrefixOf url then pstr "http:" ++ url else url

/-- src/main.py lines 165-167: the `text_content` block. -/
def text_yaml_block (text : PyStr) : PyStr :=
  pstr "text_content: |\n"
    ++ (pySplitNl text).flatMap (fun line => pstr "  " ++ line ++ pstr "\n")

/-- src/main.py lines 169-171: the serialized image section (`images:` header
when any image survives, plus one `- <url>` line per image). -/
def images_yaml (images : List PyStr) : PyStr :=
  (if images.length > 0 then pstr "images:\n" else [])
    ++ images.flatMap (fun image => pstr "- " ++ image ++ pstr "\n")

/-- src/main.py lines 173-176: the final response body. -/
def render_body (text : PyStr) (images : List PyStr) : PyStr :=
  let yaml_text := text_yaml_block text ++ pstr "\n" ++ images_yaml images
  yaml_text ++ pstr "\nI now know the final answer"
    ++ (if images.length > 0 then IMAGES_SUFIX else pstr ".") ++ pstr "\n"

/-!
## HTML document model

BeautifulSoup's parsed tree is modelled as a left-child / right-sibling
structure: a `Dom` value is a forest (a chain of siblings), each element node
carrying its child forest.  This keeps every traversal structurally recursive.
A node is represented by the subterm whose head constructor is that node.
-/

/-- A parsed HTML forest (sibling chain); `nilD` ends a chain.  An element has
a tag, an attribute list and a child forest. -/
inductive Dom where
  | nilD
  | txt (s : PyStr) (sib : Dom)
  | elem (tag : PyStr) (attrs : List (PyStr × PyStr)) (child : Dom) (sib : Dom)

/-- The tag of a node (`None` for text / end-of-chain). -/
def tagOf : Dom → Option PyStr
  | .elem t _ _ _ => some t
  | _ => none

/-- Attribute list of a node. -/
def attrsOf : Dom → List (PyStr × PyStr)
  | .elem _ a _ _ => a
  | _ => []

/-- BeautifulSoup `node.get(key)`: first attribute with the given name. -/
def getAttr (key : PyStr) (n : Dom) : Option PyStr :=
  ((attrsOf n).find? (fun kv => kv.1 == key)).map (fun kv => kv.2)

/-- All nodes of a forest in document (preorder) order. -/
def forestNodes : Dom → List Dom
  | .nilD => []
  | d@(.txt _ sib) => d :: forestNodes sib
  | d@(.elem _ _ child sib) => d :: (forestNodes child ++ forestNodes sib)

/-- Descendant nodes of a node in document order (excluding the node itself),
as searched by BeautifulSoup `find_all`. -/
def nodeDescendants : Dom → List Dom
  | .elem _ _ child _ => forestNodes child
  | _ => []

/-- BeautifulSoup `n.find_all(tag)`: descendant elements with the tag, in
document order. -/
def find_all (tag : PyStr) (n : Dom) : List Dom :=
  (nodeDescendants n).filter (fun c => tagOf c == some tag)

/-- `(parent, node)` pairs for every node of the forest in document order,
recording each node's parent element (the extra `parent` argument). -/
def pairsUnder (parent : Dom) : Dom → List (Dom × Dom)
  | .nilD => []
  | d@(.txt _ sib) => (parent, d) :: pairsUnder parent sib
  | d@(.elem _ _ child sib) => (parent, d) :: (pairsUnder d child ++ pairsUnder parent sib)

/-- `(parent, node)` pairs of the whole document, the root standing for the
BeautifulSoup document object itself (the parent of top-level nodes). -/
def allPairs (root : Dom) : List (Dom × Dom) :=
  match root with
  | .elem _ _ child _ => pairsUnder root child
  | _ => []

/-- The soup object: a synthetic `[document]` element holding the parsed forest. -/
def soupRoot (doc : Dom) : Dom := .elem (pstr "[document]") [] doc .nilD

/-- The text strings of a forest in document order (BeautifulSoup `strings`). -/
def forestStrings : Dom → List PyStr
  | .nilD => []
  | .txt s sib => s :: forestStrings sib
  | .elem _ _ child sib => forestStrings child ++ forestStrings sib

/-- The text strings below one node. -/
def nodeStrings : Dom → List PyStr
  | .txt s _ => [s]
  | .elem _ _ child _ => forestStrings child
  | .nilD => []

/-- BeautifulSoup `n.get_text(strip=True)`: each descendant string stripped,
empty results skipped, the rest concatenated. -/
def get_text_strip (n : Dom) : PyStr :=
  (((nodeStrings n).map pyStrip).filter (fun s => !s.isEmpty)).flatten

/-- src/main.py lines 122-130: paragraph fragments with the div and span
fallback tiers (first non-empty tier wins). -/
def htmlParagraphs (root : Dom) : List PyStr :=
  let ps := (find_all (pstr "p") root).map get_text_strip
  if ps.isEmpty then
    let ds := (find_all (pstr "div") root).map get_text_strip
    if ds.isEmpty then (find_all (pstr "span") root).map get_text_strip else ds
  else ps

/-- src/main.py lines 135-138: for every `<p>` in document order, the `src` of
every `<img>` found by `parent.find_all("img")` (a recursive descendant
search) whose `src` attribute is truthy (present and non-empty). -/
def srcOf (n : Dom) : Option PyStr :=
  match getAttr (pstr "src") n with
  | some v => if v.isEmpty then none else some v
  | none => none

/-- src/main.py lines 135-138: the HTML image collector. -/
def html_images (root : Dom) : List PyStr :=
  (allPairs root).flatMap (fun pr =>
    if tagOf pr.2 == some (pstr "p") then (find_all (pstr "img") pr.1).filterMap srcOf
    else [])

/-!
## JSON values and the image-link regex
-/

/-- A parsed JSON value (the result of the external `json.loads`). -/
inductive PyJson where
  | null
  | bool (b : Bool)
  | num (n : Int)
  | str (s : PyStr)
  | arr (items : List PyJson)
  | obj (fields : List (PyStr × PyJson))

/-- The extension alternation of the regex in src/main.py line 34, in source
order (note `.bmp` IS present here, unlike the plain-text branch). -/
def regexExts : List PyStr :=
  [pstr "jpg", pstr "jpeg", pstr "png", pstr "gif", pstr "bmp", pstr "webp", pstr "svg"]

/-- First extension of the alternation matching (case-insensitively) at the
head of `s`, with its length. -/
def tryExt (s : PyStr) : Option Nat :=
  (regexExts.find? (fun e => e.isPrefixOf (bytesLower s))).map List.length

/-- Backtracking of the greedy `\S+` of the regex over the non-space run
`run`: try the dot at position `L`, `L-1`, ..., `1` (at least one `\S+`
character must precede it) and return the end of the whole-run match. -/
def scanDot (run : PyStr) : Nat → Option Nat
  | 0 => none
  | L + 1 =>
    match run.drop (L + 1) with
    | '.' :: after =>
      (match tryExt after with
       | some e => some (L + 2 + e)
       | none => scanDot run L)
    | _ => scanDot run L

/-- Length of a regex match of `https?://\S+\.(?:jpg|jpeg|png|gif|bmp|webp|svg)`
(IGNORECASE) starting exactly at the head of `s`, if any. -/
def matchAt (s : PyStr) : Option Nat :=
  let ls := bytesLower s
  if (pstr "http").isPrefixOf ls then
    let sl := if (pstr "s://").isPrefixOf (ls.drop 4) then some 8
              else if (pstr "://").isPrefixOf (ls.drop 4) then some 7
              else none
    match sl with
    | none => none
    | some k =>
      let run := (s.drop k).takeWhile (fun c => !c.isWhitespace)
      match scanDot run run.length with
      | some e => some (k + e)
      | none => none
  else none

/-- `re.findall` scanning: try a match at every position left to right,
continuing after the end of each match. -/
def findMatches : Nat → PyStr → List PyStr
  | 0, _ => []
  | _, [] => []
  | fuel + 1, s@(_ :: rest) =>
    match matchAt s with
    | some len => s.take len :: findMatches fuel (s.drop len)
    | none => findMatches fuel rest

/-- src/main.py lines 33-36: `extract_image_links(text)`. -/
def extract_image_links (text : PyStr) : List PyStr :=
  findMatches text.length text

/-- src/main.py lines 145-151, one `value` of the `json_data.items()` loop:
image links from a string value, or from string items of a list value. -/
def value_images (v : PyJson) : List PyStr :=
  match v with
  | .str s => extract_image_links s
  | .arr items =>
    items.flatMap (fun item =>
      match item with
      | .str s => extract_image_links s
      | _ => [])
  | _ => []

/-- src/main.py lines 145-151: the `for _, value in json_data.items()` loop.
`.items()` exists only on a dict: on any other top-level JSON value the Python
code raises `AttributeError` (e.g. a top-level array), modelled as `.error`. -/
def json_branch_images (j : PyJson) : Except PyStr (List PyStr) :=
  match j with
  | .obj fields => .ok (fields.flatMap (fun kv => value_images kv.2))
  | _ => .error (pstr "AttributeError: list object has no attribute items")

/-- src/main.py lines 153-156: the plain-text image collector.  A line is kept
exactly when it ends with one of `.jpg .png .jpeg .gif .webp .svg` (source
order; case-sensitive `str.endswith`; no `.bmp`). -/
def plain_images (text : PyStr) : List PyStr :=
  (pySplitNl text).filter (fun line =>
    (pstr ".jpg").isSuffixOf line || (pstr ".png").isSuffixOf line
      || (pstr ".jpeg").isSuffixOf line || (pstr ".gif").isSuffixOf line
      || (pstr ".webp").isSuffixOf line || (pstr ".svg").isSuffixOf line)

/-!
## The request pipeline
-/

/-- A fetched resource together with the results of the external collaborators
applied to it: `content` is the (decoded) response body; `jsonParse` is the
result of `json.loads(content)` when it succeeds; `yamlParses` records whether
`yaml.safe_load(content)` succeeds; `jsonDump` is the string the external
`yaml.dump(json_data, sort_keys=False, default_flow_style=False)` returns for
the parsed JSON; `pdfPages` are the page texts `PyPDF2` extracts; `htmlDoc` is
the forest BeautifulSoup parses. -/
structure Fetched where
  content : PyStr
  jsonParse : Option PyJson
  yamlParses : Bool
  jsonDump : PyStr
  pdfPages : List PyStr
  htmlDoc : Dom

/-- src/main.py lines 107-156 specialized to a known content type: the four
extraction `if`-branches producing `(text, images)`.  No branch tests
`application/x-yaml`, so a YAML-classified input keeps the initializers
`text = ""`, `images = []`. -/
def extract_by_type (f : Fetched) (ct : String) : Except PyStr (PyStr × List PyStr) :=
  if ct = "application/pdf" then .ok (f.pdfPages.flatten, [])
  else if ct = "text/html" then
    let root := soupRoot f.htmlDoc
    .ok (List.intercalate (pstr " ") (truncate_paragraphs (htmlParagraphs root) CHAR_LIMIT),
         html_images root)
  else if ct = "application/json" then
    match f.jsonParse with
    | some j => (json_branch_images j).map (fun imgs => (f.jsonDump, imgs))
    | none => .error (pstr "json.JSONDecodeError")
  else if ct = "text/plain" then .ok (f.content, plain_images f.content)
  else .ok ([], [])

/-- src/main.py lines 107-156: sniff the content type, then extract. -/
def extract_content (f : Fetched) : Except PyStr (PyStr × List PyStr) :=
  extract_by_type f (detect_content_type f.content f.jsonParse.isSome f.yamlParses)

/-- The pipeline's final state before response construction. -/
structure PipelineOut where
  text : PyStr
  images : List PyStr
  rendered : PyStr
deriving DecidableEq

/-- src/main.py lines 158-176: URL normalization, image budget, text clamp and
rendering applied to the extracted `(text, images)`. -/
def assemble (ti : PyStr × List PyStr) : PipelineOut :=
  let images := ti.2.map normalizeUrl
  let images := limit_image_count images IMAGES_CHAR_LIMIT
  let text := clampText ti.1 CHAR_LIMIT
  { text := text, images := images, rendered := render_body text images }

/-- src/main.py lines 106-176: the whole in-memory pipeline on fetched bytes.
`.error` models an exception escaping the pipeline into the handler's
`except` clause. -/
def run_pipeline (f : Fetched) : Except PyStr PipelineOut :=
  (extract_content f).map assemble

/-- A FastAPI response as produced by the handler: either a plain-text
`Response` or a `JSONResponse` whose content is `{"error": <field>}`. -/
inductive HttpResponse where
  | plainText (body : PyStr)
  | jsonError (status : Nat) (errorField : PyStr)
deriving DecidableEq

/-- src/main.py lines 179-182: the error message wrapping the exception. -/
def error_message (e : PyStr) : PyStr :=
  pstr "Sorry, the url is not available. " ++ e
    ++ pstr "\nYou should report this message to the user!"

/-- src/main.py lines 99-182: `get_url_content`.  The argument is the outcome
of the external fetch (`.error` = httpx/`raise_for_status` raised); the
try/except surrounds both the fetch and the pipeline, turning every raised
exception into a status-500 JSON response. -/
def get_url_content (fetchResult : Except PyStr Fetched) : HttpResponse :=
  match fetchResult.bind run_pipeline with
  | .ok out => .plainText out.rendered
  | .error e => .jsonError 500 (error_message e)

/-!
## Shared lemmas
-/

/-- Total character count of a fragment / URL list. -/
def sumLen (xs : List PyStr) : Nat := (xs.map List.length).sum

theorem clampText_length_le (t : PyStr) (limit : Nat) : (clampText t limit).length ≤ limit := by
  unfold clampText
  by_cases h : t.length > limit
  · simp [h, List.length_take]
  · simp [h]; omega

theorem limitGo_sumLen (M : Nat) :
    ∀ (us : List PyStr) (cur : Nat), cur ≤ M → cur + sumLen (limitGo M us cur) ≤ M := by
  intro us
  induction us with
  | nil => intro cur h; simpa [limitGo, sumLen] using h
  | cons u rest ih =>
    intro cur h
    by_cases hp : (pstr "//").isPrefixOf u
    · by_cases hb : cur + ((pstr "http:").length + u.length) > M
      · simp [limitGo, hp, hb, sumLen]; omega
      · have hrec := ih (cur + ((pstr "http:").length + u.length)) (by omega)
        simp [limitGo, hp, hb, sumLen, List.length_append] at hrec ⊢
        omega
    · by_cases hb : cur + u.length > M
      · simp [limitGo, hp, hb, sumLen]; omega
      · have hrec := ih (cur + u.length) (by omega)
        simp [limitGo, hp, hb, sumLen] at hrec ⊢
        omega

theorem limitGo_no_protocol_rel (M : Nat) :
    ∀ (us : List PyStr) (cur : Nat) (u : PyStr), u ∈ limitGo M us cur →
      (pstr "//").isPrefixOf u = false := by
  intro us
  induction us with
  | nil => intro cur u h; simp [limitGo] at h
  | cons v rest ih =>
    intro cur u h
    by_cases hp : (pstr "//").isPrefixOf v
    · by_cases hb : cur + ((pstr "http:").length + v.length) > M
      · simp [limitGo, hp, hb] at h
      · simp [limitGo, hp, hb] at h
        rcases h with h1 | h2
        · subst h1; rfl
        · exact ih _ u h2
    · by_cases hb : cur + v.length > M
      · simp [limitGo, hp, hb] at h
      · simp [limitGo, hp, hb] at h
        rcases h with h1 | h2
        · subst h1; simpa only [Bool.not_eq_true] using hp
        · exact ih _ u h2

theorem limitGo_eq_self (M : Nat) :
    ∀ (us : List PyStr) (cur : Nat),
      (∀ u ∈ us, (pstr "//").isPrefixOf u = false) → cur + sumLen us ≤ M →
      limitGo M us cur = us := by
  intro us
  induction us with
  | nil => intro cur _ _; rfl
  | cons u rest ih =>
    intro cur hall hsum
    have hu := hall u (List.mem_cons_self u rest)
    have hsum' : cur + (u.length + sumLen rest) ≤ M := by
      simpa [sumLen] using hsum
    have hb : ¬ (cur + u.length > M) := by omega
    simp [limitGo, hu, hb]
    exact ih (cur + u.length) (fun w hw => hall w (List.mem_cons_of_mem _ hw)) (by omega)

theorem limit_image_count_idem (us : List PyStr) (B : Nat) :
    limit_image_count (limit_image_count us B) B = limit_image_count us B := by
  unfold limit_image_count
  apply limitGo_eq_self
  · intro u hu; exact limitGo_no_protocol_rel B us 0 u hu
  · simpa using limitGo_sumLen B us 0 (Nat.zero_le B)

theorem truncateGo_sumLen (B : Nat) :
    ∀ (ps : List PyStr) (cur : Nat), cur ≤ B → cur + sumLen (truncateGo B ps cur) ≤ B := by
  intro ps
  induction ps with
  | nil => intro cur h; simpa [truncateGo, sumLen] using h
  | cons p rest ih =>
    intro cur h
    by_cases hb : cur + p.length ≤ B
    · have hrec := ih (cur + p.length) hb
      simp [truncateGo, hb, sumLen] at hrec ⊢
      omega
    · simp [truncateGo, hb, sumLen, List.length_take]
      omega

theorem truncateGo_eq_self (B : Nat) :
    ∀ (ps : List PyStr) (cur : Nat), cur + sumLen ps ≤ B → truncateGo B ps cur = ps := by
  intro ps
  induction ps with
  | nil => intro cur _; rfl
  | cons p rest ih =>
    intro cur hsum
    have hsum' : cur + (p.length + sumLen rest) ≤ B := by simpa [sumLen] using hsum
    have hb : cur + p.length ≤ B := by omega
    simp only [truncateGo, if_pos hb]
    exact congrArg (p :: ·) (ih (cur + p.length) (by omega))

theorem truncate_paragraphs_idem (ps : List PyStr) (B : Nat) :
    truncate_paragraphs (truncate_paragraphs ps B) B = truncate_paragraphs ps B := by
  unfold truncate_paragraphs
  exact truncateGo_eq_self B _ 0 (by simpa using truncateGo_sumLen B ps 0 (Nat.zero_le B))

theorem image_lines_length (xs : List PyStr) :
    (xs.flatMap (fun image => pstr "- " ++ image ++ pstr "\n")).length
      = sumLen xs + 3 * xs.length := by
  induction xs with
  | nil => rfl
  | cons x l ih =>
    have h2 : (pstr "- ").length = 2 := rfl
    have h1 : (pstr "\n").length = 1 := rfl
    simp only [List.flatMap_cons, List.length_append, List.length_cons, sumLen, List.map_cons,
      List.sum_cons, h2, h1, ih]
    simp [sumLen] at ih ⊢
    omega

theorem images_yaml_length_le (xs : List PyStr) :
    (images_yaml xs).length ≤ 8 + sumLen xs + 3 * xs.length := by
  unfold images_yaml
  have hl := image_lines_length xs
  have h8 : (pstr "images:\n").length = 8 := rfl
  by_cases h : xs.length > 0
  · rw [if_pos h, List.length_append, h8, hl]
    omega
  · rw [if_neg h, List.nil_append, hl]
    omega


/-!
## Claims
-/

/-- The text budget invariant on a pipeline outcome: whenever the pipeline
succeeds, the text carried into formatting is within `CHAR_LIMIT`. -/
def textWithinLimit : Except PyStr PipelineOut → Prop
  | .ok out => out.text.length ≤ CHAR_LIMIT
  | .error _ => True

/-- C1: for every fetched input, whatever fragments the format branches yield,
the pipeline's text value after the final hard cap (src/main.py lines 162-163)
has length at most `CHAR_LIMIT = 1585` — this is the value every format branch
hands to the formatter. -/
theorem C1_text_budget : ∀ f : Fetched, textWithinLimit (run_pipeline f) := by
  intro f
  unfold run_pipeline
  cases h : extract_content f with
  | error e => simp [Except.map, textWithinLimit]
  | ok ti =>
    simpa [Except.map, textWithinLimit, assemble] using clampText_length_le ti.1 CHAR_LIMIT

/-- C2 counterexample: a single 295-character URL survives `limit_image_count`
untouched (295 ≤ 300), yet its serialized image section — the `images:` header
plus the `- <url>` line — is 306 characters, exceeding
`IMAGES_CHAR_LIMIT = 300`.  The claim that the serialized section never
exceeds the image budget is false. -/
theorem C2_counterexample :
    limit_image_count [List.replicate 295 'a'] IMAGES_CHAR_LIMIT = [List.replicate 295 'a'] ∧
    (images_yaml (limit_image_count [List.replicate 295 'a'] IMAGES_CHAR_LIMIT)).length = 306 ∧
    IMAGES_CHAR_LIMIT < 306 :=
  ⟨rfl, rfl, by decide⟩

/-- C2 (amended): the image character budget bounds the total character length
of the surviving URLs themselves (with the `http:` normalization counted), not
the serialized section; the serialized section is additionally bounded by the
8-character `images:` header plus 3 framing characters (`- ` and the newline)
per surviving image. -/
theorem C2_image_budget_amended :
    ∀ (images : List PyStr) (max_chars : Nat),
      sumLen (limit_image_count images max_chars) ≤ max_chars ∧
      (images_yaml (limit_image_count images max_chars)).length
        ≤ 8 + max_chars + 3 * (limit_image_count images max_chars).length := by
  intro images M
  have h1 := limitGo_sumLen M images 0 (Nat.zero_le M)
  have h1' : sumLen (limit_image_count images M) ≤ M := by
    simpa [limit_image_count] using h1
  refine ⟨h1', ?_⟩
  have h2 := images_yaml_length_le (limit_image_count images M)
  omega

/-- A fetched top-level JSON array, as classified by `detect_content_type`
(starts with `[` and `json.loads` succeeds). -/
def jsonArrEx : Fetched :=
  { content := pstr "[1, 2]", jsonParse := some (.arr [.num 1, .num 2]),
    yamlParses := false, jsonDump := pstr "- 1\n- 2\n", pdfPages := [], htmlDoc := .nilD }

/-- C3: the pipeline is NOT total on decodable input — the code classifies a
top-level JSON array as JSON (`[` prefix, parse succeeds), then calls
`json_data.items()`, which only exists on a dict: on `[1, 2]` the extraction
raises `AttributeError` and the request falls into the 500 handler, where the
claim (and the spec's propagation policy) says it is processed without error. -/
theorem C3_json_array_raises :
    detect_content_type jsonArrEx.content jsonArrEx.jsonParse.isSome jsonArrEx.yamlParses
        = "application/json" ∧
    run_pipeline jsonArrEx
        = Except.error (pstr "AttributeError: list object has no attribute items") ∧
    get_url_content (Except.ok jsonArrEx)
        = HttpResponse.jsonError 500
            (error_message (pstr "AttributeError: list object has no attribute items")) :=
  ⟨rfl, rfl, rfl⟩

/-- C4 counterexample: `"<HTML>"` begins with `<html` case-insensitively, but
`detect_content_type` returns plain text for it: only the DOCTYPE test is
applied to the upper-cased bytes; the `<html` test is a case-sensitive
comparison on the raw bytes. -/
theorem C4_counterexample :
    (pstr "<html").isPrefixOf (bytesLower (pstr "<HTML><p>x</p></html>")) = true ∧
    detect_content_type (pstr "<HTML><p>x</p></html>") false false = "text/plain" :=
  ⟨rfl, rfl⟩

/-- C4 (amended): the rules are checked in order with first match winning, and
an input beginning with an HTML doctype (case-insensitively) or with the exact
lower-case `<html` is classified HTML; `<HTML` / `<Html` are NOT — they fall
through to the later rules. -/
theorem C4_detect_html_amended (content : PyStr) (jsonParses yamlParses : Bool)
    (h : (pstr "<!DOCTYPE HTML").isPrefixOf (bytesUpper content) = true
       ∨ (pstr "<html").isPrefixOf content = true) :
    detect_content_type content jsonParses yamlParses = "text/html" := by
  have hpdf : (pstr "%PDF-").isPrefixOf content = false := by
    cases content with
    | nil =>
      rcases h with h | h
      · rw [show (pstr "<!DOCTYPE HTML") = '<' :: pstr "!DOCTYPE HTML" from rfl] at h
        simp [bytesUpper, List.isPrefixOf] at h
      · rw [show (pstr "<html") = '<' :: pstr "html" from rfl] at h
        simp [List.isPrefixOf] at h
    | cons c cs =>
      rw [show (pstr "%PDF-") = '%' :: pstr "PDF-" from rfl]
      simp only [List.isPrefixOf, Bool.and_eq_false_iff]
      by_cases hc : c = '%'
      · exfalso
        subst hc
        rcases h with h | h
        · rw [show (pstr "<!DOCTYPE HTML") = '<' :: pstr "!DOCTYPE HTML" from rfl] at h
          simp only [bytesUpper, List.map_cons, List.isPrefixOf, Bool.and_eq_true,
            beq_iff_eq] at h
          exact absurd h.1 (by decide)
        · rw [show (pstr "<html") = '<' :: pstr "html" from rfl] at h
          simp only [List.isPrefixOf, Bool.and_eq_true, beq_iff_eq] at h
          exact absurd h.1 (by decide)
      · left
        simpa using fun he => hc he.symm
  unfold detect_content_type
  rw [hpdf]
  rcases h with h | h <;> simp [h]

/-- C4 witness: a lower-case `<html` input is classified HTML. -/
theorem C4_witness :
    detect_content_type (pstr "<html><p>x</p></html>") false false = "text/html" :=
  C4_detect_html_amended (pstr "<html><p>x</p></html>") false false (Or.inr (by decide))

/-- A fetched YAML document: begins with `---` and `yaml.safe_load` succeeds. -/
def yamlEx : Fetched :=
  { content := pstr "--- raw yaml text", jsonParse := none, yamlParses := true,
    jsonDump := [], pdfPages := [], htmlDoc := .nilD }

/-- C5 counterexample: an input classified `application/x-yaml` carries
non-empty raw text, yet extraction returns empty text (and no images): none of
the four extraction branches in src/main.py lines 111-156 tests the YAML
content type, so `text` keeps its initializer `""` — the rendered
`text_content` block is empty, not the raw decoded text. -/
theorem C5_counterexample :
    detect_content_type yamlEx.content yamlEx.jsonParse.isSome yamlEx.yamlParses
        = "application/x-yaml" ∧
    yamlEx.content ≠ [] ∧
    extract_content yamlEx = Except.ok ([], []) :=
  ⟨rfl, by decide, rfl⟩

/-- C5 (amended): for every input classified YAML, no extraction branch
applies: the extracted text and image list are both empty (the raw decoded
text is NOT used), so the rendered `text_content` block is empty. -/
theorem C5_yaml_extracts_nothing (f : Fetched)
    (h : detect_content_type f.content f.jsonParse.isSome f.yamlParses = "application/x-yaml") :
    extract_content f = Except.ok ([], []) := by
  unfold extract_content
  rw [h]
  rfl

/-- C5 witness: the amended theorem applied to the concrete YAML input. -/
theorem C5_witness : extract_content yamlEx = Except.ok ([], []) :=
  C5_yaml_extracts_nothing yamlEx rfl

/-- The claim-side line rule as C6 states it: ends case-insensitively with one
of the seven extensions, `.bmp` included. -/
def spec_image_line_ci (line : PyStr) : Bool :=
  (pstr ".jpg").isSuffixOf (bytesLower line) || (pstr ".jpeg").isSuffixOf (bytesLower line)
    || (pstr ".png").isSuffixOf (bytesLower line) || (pstr ".gif").isSuffixOf (bytesLower line)
    || (pstr ".bmp").isSuffixOf (bytesLower line) || (pstr ".webp").isSuffixOf (bytesLower line)
    || (pstr ".svg").isSuffixOf (bytesLower line)

/-- C6 counterexample: the line `photo.bmp` ends with `.bmp` (so the claim
says it is collected), but the plain-text collector ignores it — the code's
suffix list has no `.bmp`, and its `str.endswith` checks are case-sensitive. -/
theorem C6_counterexample :
    spec_image_line_ci (pstr "photo.bmp") = true ∧
    plain_images (pstr "photo.bmp") = [] :=
  ⟨rfl, rfl⟩

/-- C6 (amended): a line of the decoded text is collected exactly when it ends
— case-sensitively — with one of `.jpg`, `.png`, `.jpeg`, `.gif`, `.webp`,
`.svg` (no `.bmp`); whole lines only, no scan inside a line. -/
theorem C6_plain_lines_amended :
    ∀ (text : PyStr) (line : PyStr),
      line ∈ plain_images text ↔
        line ∈ pySplitNl text ∧
          ((pstr ".jpg").isSuffixOf line = true ∨ (pstr ".png").isSuffixOf line = true
            ∨ (pstr ".jpeg").isSuffixOf line = true ∨ (pstr ".gif").isSuffixOf line = true
            ∨ (pstr ".webp").isSuffixOf line = true ∨ (pstr ".svg").isSuffixOf line = true) := by
  intro text line
  constructor
  · intro h
    have h' := List.mem_filter.mp h
    refine ⟨h'.1, ?_⟩
    have := h'.2
    simp only [Bool.or_eq_true] at this
    tauto
  · intro h
    apply List.mem_filter.mpr
    refine ⟨h.1, ?_⟩
    simp only [Bool.or_eq_true]
    tauto

/-- The nodes of one sibling level (used to read off an element's immediate
children). -/
def topNodes : Dom → List Dom
  | .nilD => []
  | d@(.txt _ sib) => d :: topNodes sib
  | d@(.elem _ _ _ sib) => d :: topNodes sib

/-- Immediate children of a node. -/
def childNodes : Dom → List Dom
  | .elem _ _ child _ => topNodes child
  | _ => []

/-- The collector as C7 words it (spec side): only the parent's immediate
children are inspected for images. -/
def html_images_children (root : Dom) : List PyStr :=
  (allPairs root).flatMap (fun pr =>
    if tagOf pr.2 == some (pstr "p") then
      ((childNodes pr.1).filter (fun c => tagOf c == some (pstr "img"))).filterMap srcOf
    else [])

/-- `<img src="x.png">`, nested inside `<p>`, nested inside `<div>`. -/
def c7img : Dom := .elem (pstr "img") [(pstr "src", pstr "x.png")] .nilD .nilD

/-- `<p><img src="x.png"></p>`. -/
def c7p : Dom := .elem (pstr "p") [] c7img .nilD

/-- `<div><p><img src="x.png"></p></div>`. -/
def c7div : Dom := .elem (pstr "div") [] c7p .nilD

/-- C7 counterexample: in `<div><p><img src="x.png"></p></div>` the image is
nested INSIDE the paragraph and is not a child of the paragraph's parent
(`div`'s only child is `p`), so the claim says it is not collected — but the
code's `parent.find_all("img")` is a recursive descendant search and collects
it. -/
theorem C7_counterexample :
    html_images (soupRoot c7div) = [pstr "x.png"] ∧
    html_images_children (soupRoot c7div) = [] :=
  ⟨rfl, rfl⟩

theorem srcOf_eq_some (n : Dom) (url : PyStr) :
    srcOf n = some url ↔ getAttr (pstr "src") n = some url ∧ url ≠ [] := by
  unfold srcOf
  cases h : getAttr (pstr "src") n with
  | none => simp
  | some v =>
    by_cases hv : v.isEmpty
    · have hvnil : v = [] := by simpa [List.isEmpty_iff] using hv
      subst hvnil
      constructor
      · intro he; simp at he
      · intro h2
        injection h2.1 with h3
        exact absurd h3.symm h2.2
    · have hvne : v ≠ [] := by simpa [List.isEmpty_iff] using hv
      show (if v.isEmpty = true then (none : Option PyStr) else some v) = some url
        ↔ some v = some url ∧ url ≠ []
      rw [if_neg hv]
      constructor
      · intro he
        refine ⟨he, ?_⟩
        injection he with h3
        exact h3 ▸ hvne
      · intro h2
        exact h2.1

/-- Membership reading of the collector: a URL is collected iff some paragraph
has an `img` descendant of its parent carrying that URL as a non-empty `src`. -/
theorem html_images_mem_iff :
    ∀ (doc : Dom) (url : PyStr),
      url ∈ html_images (soupRoot doc) ↔
        ∃ par p, (par, p) ∈ allPairs (soupRoot doc) ∧ tagOf p = some (pstr "p") ∧
          ∃ img ∈ nodeDescendants par, tagOf img = some (pstr "img")
            ∧ getAttr (pstr "src") img = some url ∧ url ≠ [] := by
  intro doc url
  unfold html_images find_all
  constructor
  · intro h
    obtain ⟨pr, hpr, hmem⟩ := List.mem_flatMap.mp h
    by_cases hp : tagOf pr.2 == some (pstr "p")
    · rw [if_pos hp] at hmem
      obtain ⟨img, himg, hsrc⟩ := List.mem_filterMap.mp hmem
      obtain ⟨himgd, himgt⟩ := List.mem_filter.mp himg
      refine ⟨pr.1, pr.2, by simpa using hpr, by simpa using hp, img, himgd,
        by simpa using himgt, ?_⟩
      exact (srcOf_eq_some img url).mp hsrc
    · rw [if_neg hp] at hmem
      simp at hmem
  · intro h
    obtain ⟨par, p, hpair, hp, img, himgd, himgt, hsrc⟩ := h
    apply List.mem_flatMap.mpr
    refine ⟨(par, p), hpair, ?_⟩
    rw [if_pos (by simpa using hp)]
    apply List.mem_filterMap.mpr
    refine ⟨img, List.mem_filter.mpr ⟨himgd, by simpa using himgt⟩, ?_⟩
    exact (srcOf_eq_some img url).mpr hsrc

/-- The collector restated with the paragraph filter pulled out of the
per-pair `if`: the batches come one per paragraph pair, in `allPairs`
(document) order. -/
theorem html_images_eq_filter_flatMap (root : Dom) :
    html_images root
      = ((allPairs root).filter (fun pr => tagOf pr.2 == some (pstr "p"))).flatMap
          (fun pr => (find_all (pstr "img") pr.1).filterMap srcOf) := by
  unfold html_images
  generalize allPairs root = l
  induction l with
  | nil => rfl
  | cons a t ih =>
    by_cases h : tagOf a.2 == some (pstr "p")
    · simp only [List.flatMap_cons, List.filter_cons, h, eq_self_iff_true, if_true]
      rw [ih]
    · have hf : (tagOf a.2 == some (pstr "p")) = false := by simpa using h
      simp only [List.flatMap_cons, List.filter_cons, hf, Bool.false_eq_true, if_false,
        List.nil_append]
      exact ih

/-- One parent's batch, computed as the code does (`find_all` then the
truthiness filter on `src`) and as the amended claim words it (descendant
image elements in document order, their `src` attributes kept when present and
non-empty) — equal as lists, preserving order and multiplicity. -/
theorem filterMap_srcOf_eq (ds : List Dom) :
    (ds.filter (fun c => tagOf c == some (pstr "img"))).filterMap srcOf
      = ((ds.map (fun c =>
            if tagOf c == some (pstr "img") then getAttr (pstr "src") c
            else none)).reduceOption).filter (fun u => !u.isEmpty) := by
  induction ds with
  | nil => rfl
  | cons c t ih =>
    by_cases h : tagOf c == some (pstr "img")
    · cases ha : getAttr (pstr "src") c with
      | none =>
        have hs : srcOf c = none := by simp [srcOf, ha]
        simp only [List.filter_cons, List.map_cons, h, eq_self_iff_true, if_true,
          List.filterMap_cons, hs, ha, List.reduceOption_cons_of_none, ih]
      | some v =>
        by_cases hv : v.isEmpty
        · have hs : srcOf c = none := by simp [srcOf, ha, hv]
          simp only [List.filter_cons, List.map_cons, h, eq_self_iff_true, if_true,
            List.filterMap_cons, hs, ha, List.reduceOption_cons_of_some, hv,
            Bool.not_true, Bool.false_eq_true, if_false, ih]
        · have hvf : v.isEmpty = false := by simpa using hv
          have hs : srcOf c = some v := by simp [srcOf, ha, hv]
          simp only [List.filter_cons, List.map_cons, h, eq_self_iff_true, if_true,
            List.filterMap_cons, hs, ha, List.reduceOption_cons_of_some, hvf,
            Bool.not_false, ih]
    · have hf : (tagOf c == some (pstr "img")) = false := by simpa using h
      simp only [List.filter_cons, List.map_cons, hf, Bool.false_eq_true, if_false,
        List.reduceOption_cons_of_none, ih]

/-- The HTML image collector as the amended C7 words it: for every paragraph
element in document order, one batch per paragraph: the `src` attributes of
the image-element DESCENDANTS of its parent, in document order, kept when
present and non-empty. -/
def html_images_desc_spec (root : Dom) : List PyStr :=
  ((allPairs root).filter (fun pr => tagOf pr.2 == some (pstr "p"))).flatMap
    (fun pr =>
      (((nodeDescendants pr.1).map (fun c =>
          if tagOf c == some (pstr "img") then getAttr (pstr "src") c
          else none)).reduceOption).filter (fun u => !u.isEmpty))

/-- C7 (amended): for every document, the collector returns EXACTLY — same
URLs, same document order, one batch per paragraph, duplicates preserved — the
present-and-non-empty `src` attributes of the image elements that are
DESCENDANTS of each paragraph's parent element; this includes images nested
inside the paragraph itself, not only siblings. -/
theorem C7_html_images_amended :
    ∀ root : Dom, html_images root = html_images_desc_spec root := by
  intro root
  rw [html_images_eq_filter_flatMap]
  unfold html_images_desc_spec
  refine congrArg _ (funext fun pr => ?_)
  unfold find_all
  exact filterMap_srcOf_eq (nodeDescendants pr.1)

/-- C8: fragments `["Hello", "World"]` under a text budget of 5, pushed through
the code's composition — greedy truncation (src/main.py lines 82-96), the
space join (line 133) and the hard cap (lines 162-163), all at the same
budget — produce exactly `"Hello"`: nothing of the second fragment and no
separator character survives in the output text. -/
theorem C8_budget_five_scenario :
    clampText (List.intercalate (pstr " ")
        (truncate_paragraphs [pstr "Hello", pstr "World"] 5)) 5 = pstr "Hello" := by
  decide

/-- C9: both truncation operations are idempotent — re-truncating an output
with the same budget returns it unchanged, for every fragment sequence, URL
sequence and budget. -/
theorem C9_truncation_idempotent :
    (∀ (ps : List PyStr) (B : Nat),
        truncate_paragraphs (truncate_paragraphs ps B) B = truncate_paragraphs ps B) ∧
    (∀ (us : List PyStr) (B : Nat),
        limit_image_count (limit_image_count us B) B = limit_image_count us B) :=
  ⟨truncate_paragraphs_idem, limit_image_count_idem⟩

/-- C10: the request handler is total at its interface — for every fetch
outcome it returns a response: a plain-text rendering on success, and on any
exception raised during fetch or processing, a status-500 JSON response whose
error field embeds the exception message between the fixed apology text and
the fixed reporting instruction; no exception propagates. -/
theorem C10_handler_total :
    ∀ fetchResult : Except PyStr Fetched,
      (∃ body, get_url_content fetchResult = HttpResponse.plainText body) ∨
      (∃ e, get_url_content fetchResult
          = HttpResponse.jsonError 500
              (pstr "Sorry, the url is not available. " ++ e
                ++ pstr "\nYou should report this message to the user!")) := by
  intro fr
  cases h : fr.bind run_pipeline with
  | ok out => exact Or.inl ⟨out.rendered, by simp [get_url_content, h]⟩
  | error e => exact Or.inr ⟨e, by simp [get_url_content, h, error_message]⟩
